import Mathlib

/-!
Verification development for the tinyzkp streaming prover/verifier service.

The definitions below are shallow embeddings of the Rust sources:
`src/prover.rs` and `src/verifier.rs` (the CLI prover/verifier wrappers),
`src/bin/tinyzkp_api.rs` (the HTTP facade), and the `zk-agent` crate
(authorization-trace builder).  Machine integers are modelled as `Nat`/`Int`
with explicit `% 2 ^ 64` or saturation where the Rust code can overflow.
The `myzkp` core library (the `scheduler`, `pcs` and `domain` modules) is
not part of these sources; where a definition needs it, the scheduler
verifier is abstracted as an explicit parameter, following the
specification of the protocol.  Group elements and field elements are kept
abstract via type parameters, since none of the verified properties depend
on the curve arithmetic itself.
-/

namespace Sszkp

/-- Bytes are modelled as natural numbers (values below 256). -/
abbrev Byte := Nat

/-- The 8-byte file magic of the proof container: the ASCII bytes of
`SSZKPv2` followed by a NUL terminator (`FILE_MAGIC` in `prover.rs` and
`verifier.rs`, and the literal in the API prove/verify handlers). -/
def fileMagic : List Byte := [0x53, 0x53, 0x5A, 0x4B, 0x50, 0x76, 0x32, 0x00]

/-- Supported container version (`FILE_VERSION_SUPPORTED = 2`). -/
def fileVersionSupported : Nat := 2

/-- Big-endian byte pair of a `u16` value (`u16::to_be_bytes`). -/
def u16ToBeBytes (v : Nat) : List Byte := [v / 256 % 256, v % 256]

/-- Decode a `u16` from two big-endian bytes (`u16::from_be_bytes`). -/
def u16FromBeBytes (hi lo : Byte) : Nat := 256 * hi + lo

/-- Wire basis tag (the `pcs::Basis` enum as used by the wrappers). -/
inductive Basis
  | coefficient
  | evaluation
deriving DecidableEq

/-- Proof header, as carried by the serialized `myzkp::Proof` and read by
the CLI verifier and the API.  Field elements have abstract type `K`. -/
structure ProofHeader (K : Type) where
  domain_n : Nat
  domain_omega : K
  zh_c : K
  k : Nat
  basis_wires : Basis
  srs_g1_digest : List Byte
  srs_g2_digest : List Byte
deriving DecidableEq

/-- The deserialized `myzkp::Proof` record: header, wire commitments,
optional grand-product commitment, quotient commitment, evaluation points,
opened evaluations and opening proofs.  `G` is the abstract type of
compressed G1 elements. -/
structure Proof (K G : Type) where
  header : ProofHeader K
  wire_comms : List G
  z_comm : Option G
  q_comm : G
  eval_points : List K
  evals : List K
  opening_proofs : List G
deriving DecidableEq

/-- Rejection reasons surfaced by the container readers and the verifier
wrappers.  `ioError` stands for a propagated `read_exact` failure on a
short file; `schedulerReject` stands for any rejection returned by the
delegated scheduler verifier (transcript replay / pairing check). -/
inductive VerifyError
  | ioError
  | badMagic
  | unsupportedVersion (got : Nat)
  | encodingError
  | srsMismatch
  | proofShapeMismatch
  | schedulerReject
deriving DecidableEq

/-- Container reader of the CLI verifier (`verifier.rs`, lines 111-132):
read 8 magic bytes with `read_exact`, compare against `FILE_MAGIC`, read a
big-endian `u16` version, compare against 2, then canonically deserialize
the rest of the file.  The arkworks deserializer on the payload is external
library code and is passed in as `deser`. -/
def read_proof_cli {K G : Type} (deser : List Byte → Option (Proof K G))
    (bytes : List Byte) : Except VerifyError (Proof K G) :=
  if bytes.length < 8 then .error .ioError
  else if bytes.take 8 ≠ fileMagic then .error .badMagic
  else if bytes.length < 10 then .error .ioError
  else
    let ver := u16FromBeBytes (bytes.getD 8 0) (bytes.getD 9 0)
    if ver ≠ fileVersionSupported then .error (.unsupportedVersion ver)
    else
      match deser (bytes.drop 10) with
      | none => .error .encodingError
      | some p => .ok p

/-- Container reader of the API verify/inspect handlers
(`tinyzkp_api.rs`, lines 1404-1415): a buffer shorter than 10 bytes or with
a wrong 8-byte magic yields the bad-magic rejection, then the big-endian
version is checked against 2, then the payload is deserialized. -/
def read_proof_api {K G : Type} (deser : List Byte → Option (Proof K G))
    (bytes : List Byte) : Except VerifyError (Proof K G) :=
  if bytes.length < 10 ∨ bytes.take 8 ≠ fileMagic then .error .badMagic
  else
    let ver := u16FromBeBytes (bytes.getD 8 0) (bytes.getD 9 0)
    if ver ≠ 2 then .error (.unsupportedVersion ver)
    else
      match deser (bytes.drop 10) with
      | none => .error .encodingError
      | some p => .ok p

/-- Container writer of the CLI prover (`prover.rs`, lines 301-311): write
`FILE_MAGIC`, then `FILE_VERSION.to_be_bytes()`, then the ark-compressed
proof payload, with nothing else. -/
def write_proof_cli (payload : List Byte) : List Byte :=
  fileMagic ++ u16ToBeBytes 2 ++ payload

/-- Container building in the API prove handler (`tinyzkp_api.rs`, lines
1356-1365): extend with the magic literal, the big-endian bytes of `2u16`,
then the ark-compressed proof payload. -/
def write_proof_api (payload : List Byte) : List Byte :=
  fileMagic ++ u16ToBeBytes 2 ++ payload

/-- Outcome of one verification run. -/
inductive Outcome
  | accepted
  | rejected (e : VerifyError)
deriving DecidableEq

/-- Result of a verifier wrapper run, recording whether the delegated
scheduler verifier (`scheduler::Verifier::verify`, which replays the
transcript and performs the pairing checks) was invoked at all. -/
structure VerifierRun where
  outcome : Outcome
  schedulerInvoked : Bool
deriving DecidableEq

/-- Expected number of opened evaluations and opening proofs
(`verifier.rs`, lines 171-185): base items are wires at each point, the
optional Z commitment at each point and Q at each point; when the binary
is compiled with the zeta-shift feature and Z is present, one more item
per point is expected. -/
def expected_items (k s : Nat) (has_z zetaShift : Bool) : Nat :=
  (k + (if has_z then 1 else 0)) * s + s + (if zetaShift && has_z then s else 0)

/-- The CLI verifier main path (`verifier.rs`, lines 111-199): read the
container, compare the header SRS digests against the digests `g1d`, `g2d`
of the locally loaded SRS, check the proof shape, then delegate to the
scheduler verifier.  The scheduler verifier lives outside these sources
and is abstracted as the verdict predicate `sched`.  The CLI `--zh-c`
argument `cliZhC` is parsed but explicitly ignored (lines 59-62): the
domain is rebuilt from the proof header alone (lines 145-150). -/
def verifier_main {K G : Type} (g1d g2d : List Byte) (zetaShift : Bool)
    (cliZhC : Option Nat) (sched : Proof K G → Bool)
    (deser : List Byte → Option (Proof K G)) (bytes : List Byte) : VerifierRun :=
  match read_proof_cli deser bytes with
  | .error e => ⟨.rejected e, false⟩
  | .ok proof =>
    if proof.header.srs_g1_digest ≠ g1d then ⟨.rejected .srsMismatch, false⟩
    else if proof.header.srs_g2_digest ≠ g2d then ⟨.rejected .srsMismatch, false⟩
    else
      let k := proof.wire_comms.length
      let s := proof.eval_points.length
      let has_z := proof.z_comm.isSome
      let expected := expected_items k s has_z zetaShift
      if proof.opening_proofs.length ≠ expected ∨ proof.evals.length ≠ expected then
        ⟨.rejected .proofShapeMismatch, false⟩
      else if sched proof then ⟨.accepted, true⟩
      else ⟨.rejected .schedulerReject, true⟩

/-- The API verify handler (`tinyzkp_api.rs`, lines 1404-1448): parse the
container, rebuild the verification environment from the proof header, and
delegate directly to the scheduler verifier.  No SRS digest comparison and
no shape check appear on this path. -/
def api_verify {K G : Type} (sched : Proof K G → Bool)
    (deser : List Byte → Option (Proof K G)) (bytes : List Byte) : VerifierRun :=
  match read_proof_api deser bytes with
  | .error e => ⟨.rejected e, false⟩
  | .ok proof =>
    if sched proof then ⟨.accepted, true⟩
    else ⟨.rejected .schedulerReject, true⟩

/-- A small concrete proof value used to exercise the pipelines: no wires,
no Z commitment, no evaluation points, with a chosen `zh_c` and chosen
header SRS digests. -/
def exProof (zh : Nat) (d1 d2 : List Byte) : Proof Nat Unit where
  header :=
    { domain_n := 1024
      domain_omega := 1
      zh_c := zh
      k := 0
      basis_wires := .evaluation
      srs_g1_digest := d1
      srs_g2_digest := d2 }
  wire_comms := []
  z_comm := none
  q_comm := ()
  eval_points := []
  evals := []
  opening_proofs := []

/-- Example digest of a locally loaded SRS, distinct from `exDigestZero`. -/
def exDigestOne : List Byte := List.replicate 32 1

/-- Example header digest, distinct from `exDigestOne`. -/
def exDigestZero : List Byte := List.replicate 32 0

/-- C3: on any input to the proof-reading path (CLI verifier and API
handler alike), a wrong 8-byte magic yields the bad-magic rejection; with
the right magic, a big-endian version other than 2 at offsets 8-9 yields
the unsupported-version rejection; with magic and version right, a payload
on which canonical deserialization fails yields the encoding rejection;
and a proof object is produced only when the magic, the version and the
deserialization all succeed. -/
theorem container_gate_errors {K G : Type} (deser : List Byte → Option (Proof K G))
    (bytes : List Byte) :
    (8 ≤ bytes.length → bytes.take 8 ≠ fileMagic →
      read_proof_cli deser bytes = .error .badMagic
      ∧ read_proof_api deser bytes = .error .badMagic)
    ∧ (10 ≤ bytes.length → bytes.take 8 = fileMagic →
        ((u16FromBeBytes (bytes.getD 8 0) (bytes.getD 9 0) ≠ 2 →
          read_proof_cli deser bytes =
            .error (.unsupportedVersion (u16FromBeBytes (bytes.getD 8 0) (bytes.getD 9 0)))
          ∧ read_proof_api deser bytes =
            .error (.unsupportedVersion (u16FromBeBytes (bytes.getD 8 0) (bytes.getD 9 0))))
        ∧ (u16FromBeBytes (bytes.getD 8 0) (bytes.getD 9 0) = 2 →
            deser (bytes.drop 10) = none →
            read_proof_cli deser bytes = .error .encodingError
            ∧ read_proof_api deser bytes = .error .encodingError)))
    ∧ (∀ p, read_proof_cli deser bytes = .ok p →
        bytes.take 8 = fileMagic
        ∧ u16FromBeBytes (bytes.getD 8 0) (bytes.getD 9 0) = 2
        ∧ deser (bytes.drop 10) = some p)
    ∧ (∀ p, read_proof_api deser bytes = .ok p →
        bytes.take 8 = fileMagic
        ∧ u16FromBeBytes (bytes.getD 8 0) (bytes.getD 9 0) = 2
        ∧ deser (bytes.drop 10) = some p) := by
  unfold read_proof_cli read_proof_api fileVersionSupported
  refine ⟨?_, ?_, ?_, ?_⟩
  · intro h8 hm
    refine ⟨?_, ?_⟩
    · rw [if_neg (by omega : ¬ bytes.length < 8), if_pos hm]
    · rw [if_pos (Or.inr hm)]
  · intro h10 hm
    constructor
    · intro hv
      refine ⟨?_, ?_⟩
      · rw [if_neg (by omega : ¬ bytes.length < 8), if_neg (not_not_intro hm),
          if_neg (by omega : ¬ bytes.length < 10), if_pos hv]
      · rw [if_neg (by push_neg; exact ⟨by omega, hm⟩), if_pos hv]
    · intro hv hnone
      refine ⟨?_, ?_⟩
      · rw [if_neg (by omega : ¬ bytes.length < 8), if_neg (not_not_intro hm),
          if_neg (by omega : ¬ bytes.length < 10), if_neg (not_not_intro hv), hnone]
      · rw [if_neg (by push_neg; exact ⟨by omega, hm⟩), if_neg (not_not_intro hv),
          hnone]
  · intro p hp
    by_cases h8 : bytes.length < 8
    · rw [if_pos h8] at hp; exact absurd hp (by simp)
    rw [if_neg h8] at hp
    by_cases hm : bytes.take 8 ≠ fileMagic
    · rw [if_pos hm] at hp; exact absurd hp (by simp)
    rw [if_neg hm] at hp
    push_neg at hm
    by_cases h10 : bytes.length < 10
    · rw [if_pos h10] at hp; exact absurd hp (by simp)
    rw [if_neg h10] at hp
    by_cases hv : u16FromBeBytes (bytes.getD 8 0) (bytes.getD 9 0) ≠ 2
    · rw [if_pos hv] at hp; exact absurd hp (by simp)
    rw [if_neg hv] at hp
    push_neg at hv
    cases hd : deser (bytes.drop 10) with
    | none =>
      rw [hd] at hp
      exact Except.noConfusion hp
    | some q =>
      rw [hd] at hp
      injection hp with h
      refine ⟨hm, hv, ?_⟩
      rw [h]
  · intro p hp
    by_cases hmb : bytes.length < 10 ∨ bytes.take 8 ≠ fileMagic
    · rw [if_pos hmb] at hp; exact absurd hp (by simp)
    rw [if_neg hmb] at hp
    push_neg at hmb
    by_cases hv : u16FromBeBytes (bytes.getD 8 0) (bytes.getD 9 0) ≠ 2
    · rw [if_pos hv] at hp; exact absurd hp (by simp)
    rw [if_neg hv] at hp
    push_neg at hv
    cases hd : deser (bytes.drop 10) with
    | none =>
      rw [hd] at hp
      exact Except.noConfusion hp
    | some q =>
      rw [hd] at hp
      injection hp with h
      refine ⟨hmb.2, hv, ?_⟩
      rw [h]

/-- Witness for `container_gate_errors`: a 10-byte all-zero buffer has the
wrong magic and both readers reject it with the bad-magic error. -/
theorem container_gate_errors_witness :
    8 ≤ (List.replicate 10 (0 : Byte)).length
    ∧ (List.replicate 10 (0 : Byte)).take 8 ≠ fileMagic
    ∧ read_proof_cli (K := Nat) (G := Unit) (fun _ => none) (List.replicate 10 0)
        = .error .badMagic
    ∧ read_proof_api (K := Nat) (G := Unit) (fun _ => none) (List.replicate 10 0)
        = .error .badMagic := by
  refine ⟨by decide, by decide, ?_, ?_⟩
  · exact ((container_gate_errors (K := Nat) (G := Unit) (fun _ => none)
      (List.replicate 10 0)).1 (by decide) (by decide)).1
  · exact ((container_gate_errors (K := Nat) (G := Unit) (fun _ => none)
      (List.replicate 10 0)).1 (by decide) (by decide)).2

/-- C7: the emitted container is exactly magic, then the version 2 as a
big-endian u16, then the payload: the CLI prover and the API prove handler
produce the same bytes, the first 8 bytes are the ASCII of SSZKPv2 and a
NUL, bytes 8-9 decode to 2 big-endian, the tail from offset 10 is the
payload, and the total length is exactly 10 plus the payload length. -/
theorem container_layout (payload : List Byte) :
    write_proof_cli payload = write_proof_api payload
    ∧ fileMagic = ([ 'S', 'S', 'Z', 'K', 'P', 'v', '2' ].map Char.toNat) ++ [0]
    ∧ (write_proof_cli payload).take 8 = fileMagic
    ∧ u16FromBeBytes ((write_proof_cli payload).getD 8 0)
        ((write_proof_cli payload).getD 9 0) = 2
    ∧ (write_proof_cli payload).drop 10 = payload
    ∧ (write_proof_cli payload).length = 10 + payload.length := by
  refine ⟨rfl, by decide, ?_, ?_, ?_, ?_⟩
  · simp [write_proof_cli, fileMagic, u16ToBeBytes]
  · simp [write_proof_cli, fileMagic, u16ToBeBytes, u16FromBeBytes, List.getD]
  · simp [write_proof_cli, fileMagic, u16ToBeBytes]
  · simp [write_proof_cli, fileMagic, u16ToBeBytes]
    omega

/-- C1 (amended part): in the CLI verifier, a proof whose header SRS
digests differ from the digests of the locally loaded SRS is rejected with
the SRS-mismatch error, and the scheduler verifier (hence any pairing
check) is never invoked on it. -/
theorem cli_srs_mismatch_rejects_before_scheduler {K G : Type}
    (g1d g2d : List Byte) (zetaShift : Bool) (cliZhC : Option Nat)
    (sched : Proof K G → Bool) (deser : List Byte → Option (Proof K G))
    (bytes : List Byte) (proof : Proof K G)
    (hread : read_proof_cli deser bytes = .ok proof)
    (hmis : proof.header.srs_g1_digest ≠ g1d ∨ proof.header.srs_g2_digest ≠ g2d) :
    verifier_main g1d g2d zetaShift cliZhC sched deser bytes
      = ⟨.rejected .srsMismatch, false⟩ := by
  unfold verifier_main
  rw [hread]
  dsimp only
  by_cases h1 : proof.header.srs_g1_digest = g1d
  · rcases hmis with h | h2
    · exact absurd h1 h
    · rw [if_neg (not_not_intro h1), if_pos h2]
  · rw [if_pos h1]

/-- Witness for `cli_srs_mismatch_rejects_before_scheduler`: a concrete
proof whose header digests are all-zero, verified against an SRS whose
digests are all-one. -/
theorem cli_srs_mismatch_rejects_before_scheduler_witness :
    read_proof_cli (fun _ => some (exProof 1 exDigestZero exDigestZero))
        (write_proof_cli []) = .ok (exProof 1 exDigestZero exDigestZero)
    ∧ (exProof 1 exDigestZero exDigestZero).header.srs_g1_digest ≠ exDigestOne
    ∧ verifier_main exDigestOne exDigestOne false none (fun _ => true)
        (fun _ => some (exProof 1 exDigestZero exDigestZero)) (write_proof_cli [])
      = ⟨.rejected .srsMismatch, false⟩ := by
  refine ⟨rfl, by decide, ?_⟩
  exact cli_srs_mismatch_rejects_before_scheduler exDigestOne exDigestOne false none
    (fun _ => true) (fun _ => some (exProof 1 exDigestZero exDigestZero))
    (write_proof_cli []) (exProof 1 exDigestZero exDigestZero)
    rfl (Or.inl (by decide))

/-- C1 (counterexample): the API verify handler performs no SRS digest
comparison; on a proof whose header digests (all-zero) differ from the
digests of the locally loaded SRS (all-one), it invokes the scheduler
verifier anyway, so the claim that the scheduler verifier is never invoked
on such a proof is false for the API path.  The scheduler verdict is left
at acceptance; only the `schedulerInvoked` flag matters here and it is set
on both scheduler branches. -/
theorem api_srs_mismatch_still_invokes_scheduler :
    (exProof 1 exDigestZero exDigestZero).header.srs_g1_digest ≠ exDigestOne
    ∧ (exProof 1 exDigestZero exDigestZero).header.srs_g2_digest ≠ exDigestOne
    ∧ (api_verify (fun _ => true)
        (fun _ => some (exProof 1 exDigestZero exDigestZero))
        (write_proof_api [])).schedulerInvoked = true := by
  exact ⟨by decide, by decide, by decide⟩

/-- C4 (amended part): the CLI verifier ignores the caller-supplied
vanishing constant entirely; its result is the same for every `--zh-c`
argument (the header is authoritative for the domain). -/
theorem cli_zh_c_flag_ignored {K G : Type} (g1d g2d : List Byte)
    (zetaShift : Bool) (sched : Proof K G → Bool)
    (deser : List Byte → Option (Proof K G)) (bytes : List Byte)
    (c c' : Option Nat) :
    verifier_main g1d g2d zetaShift c sched deser bytes
      = verifier_main g1d g2d zetaShift c' sched deser bytes := rfl

/-- C4 (counterexample): a proof produced with vanishing constant 7
(header `zh_c = 7`), verified with the same SRS loaded (header digests
equal the local digests) while the caller passes `--zh-c 1`, is accepted:
the flag is ignored, no SRS mismatch fires, and the scheduler verifier
(instantiated here to the accepting verdict that the specification's
completeness property prescribes for the honestly produced proof) runs
exactly as it would for `c = 7`. -/
theorem verify_coset_proof_with_cli_c_one_accepts :
    (exProof 7 exDigestOne exDigestOne).header.zh_c = 7
    ∧ (verifier_main exDigestOne exDigestOne false (some 1) (fun _ => true)
        (fun _ => some (exProof 7 exDigestOne exDigestOne))
        (write_proof_cli [])).outcome = .accepted := by
  exact ⟨rfl, by decide⟩

/-- C2: once a proof has been read and its header digests match the loaded
SRS, the CLI verifier proceeds past the shape check to transcript replay
(the scheduler verifier is invoked) precisely when both the evaluation
list and the opening-proof list have the expected length; any deviation is
rejected with the proof-shape-mismatch error with the scheduler verifier
never invoked. -/
theorem shape_check_iff {K G : Type} (g1d g2d : List Byte) (zetaShift : Bool)
    (cliZhC : Option Nat) (sched : Proof K G → Bool)
    (deser : List Byte → Option (Proof K G)) (bytes : List Byte)
    (proof : Proof K G)
    (hread : read_proof_cli deser bytes = .ok proof)
    (hg1 : proof.header.srs_g1_digest = g1d)
    (hg2 : proof.header.srs_g2_digest = g2d) :
    (proof.evals.length
        = expected_items proof.wire_comms.length proof.eval_points.length
            proof.z_comm.isSome zetaShift
      ∧ proof.opening_proofs.length
        = expected_items proof.wire_comms.length proof.eval_points.length
            proof.z_comm.isSome zetaShift
      → (verifier_main g1d g2d zetaShift cliZhC sched deser bytes).schedulerInvoked
          = true)
    ∧ (proof.evals.length
        ≠ expected_items proof.wire_comms.length proof.eval_points.length
            proof.z_comm.isSome zetaShift
      ∨ proof.opening_proofs.length
        ≠ expected_items proof.wire_comms.length proof.eval_points.length
            proof.z_comm.isSome zetaShift
      → verifier_main g1d g2d zetaShift cliZhC sched deser bytes
          = ⟨.rejected .proofShapeMismatch, false⟩) := by
  unfold verifier_main
  rw [hread]
  dsimp only
  rw [if_neg (not_not_intro hg1), if_neg (not_not_intro hg2)]
  constructor
  · intro hok
    rw [if_neg (by push_neg; exact ⟨hok.2, hok.1⟩)]
    by_cases hs : sched proof = true
    · rw [if_pos hs]
    · rw [if_neg hs]
  · intro hbad
    rcases hbad with h | h
    · rw [if_pos (Or.inr h)]
    · rw [if_pos (Or.inl h)]

/-- Witness for `shape_check_iff`: the concrete proof with no wires, no Z
and no evaluation points has the expected shape (zero items), so the run
reaches the scheduler verifier. -/
theorem shape_check_iff_witness :
    read_proof_cli (fun _ => some (exProof 1 exDigestOne exDigestOne))
        (write_proof_cli []) = .ok (exProof 1 exDigestOne exDigestOne)
    ∧ (verifier_main exDigestOne exDigestOne false none (fun _ => true)
        (fun _ => some (exProof 1 exDigestOne exDigestOne))
        (write_proof_cli [])).schedulerInvoked = true := by
  refine ⟨rfl, ?_⟩
  exact (shape_check_iff exDigestOne exDigestOne false none (fun _ => true)
    (fun _ => some (exProof 1 exDigestOne exDigestOne)) (write_proof_cli [])
    (exProof 1 exDigestOne exDigestOne) rfl rfl rfl).1 ⟨rfl, rfl⟩

/-- Square-and-multiply loop of `pow_u64` (`prover.rs`, lines 61-70): the
accumulator starts at one; while the exponent is nonzero, the accumulator
is multiplied by the base when the low exponent bit is set, the base is
squared in place, and the exponent is shifted right by one.  `K` is the
abstract scalar field. -/
def pow_u64_loop {K : Type} [CommRing K] (acc base : K) (exp : Nat) : K :=
  if h : exp = 0 then acc
  else pow_u64_loop (if exp % 2 = 1 then acc * base else acc) (base * base) (exp / 2)
termination_by exp
decreasing_by exact Nat.div_lt_self (Nat.pos_of_ne_zero h) Nat.one_lt_two

/-- Fast field exponentiation (`prover.rs`, `pow_u64`). -/
def pow_u64 {K : Type} [CommRing K] (base : K) (exp : Nat) : K :=
  pow_u64_loop 1 base exp

theorem pow_u64_loop_eq {K : Type} [CommRing K] :
    ∀ (exp : Nat) (acc base : K), pow_u64_loop acc base exp = acc * base ^ exp := by
  intro exp
  induction exp using Nat.strong_induction_on with
  | _ e ih =>
    intro acc base
    rw [pow_u64_loop]
    by_cases h : e = 0
    · rw [dif_pos h, h, pow_zero, mul_one]
    · rw [dif_neg h, ih (e / 2) (Nat.div_lt_self (Nat.pos_of_ne_zero h) Nat.one_lt_two)]
      have hdm : 2 * (e / 2) + e % 2 = e := Nat.div_add_mod e 2
      have hlt : e % 2 < 2 := Nat.mod_lt e (by omega)
      by_cases hm : e % 2 = 1
      · rw [if_pos hm, mul_pow, ← pow_add]
        have hpow : base ^ e = base ^ (e / 2 + e / 2) * base := by
          rw [← pow_succ]
          congr 1
          omega
        rw [hpow]
        ring
      · rw [if_neg hm, mul_pow, ← pow_add]
        have hee : e / 2 + e / 2 = e := by omega
        rw [hee]

/-- Rejection reasons of `validate_domain_params` (`prover.rs`, lines
147-163), one per error message in the source. -/
inductive DomainError
  | sizeNotPositive
  | zhCZero
  | omegaPowNotOne
  | omegaNotPrimitive
deriving DecidableEq

/-- Domain parameter validation (`prover.rs`, lines 147-163): the domain
size must be positive, the vanishing constant nonzero, the generator must
satisfy omega to the N equal one, and for N at least 2 omega to the N/2
must differ from one; the exponentiations use `pow_u64`. -/
def validate_domain_params {K : Type} [CommRing K] [DecidableEq K]
    (n : Nat) (omega zh_c : K) : Except DomainError Unit :=
  if n = 0 then .error .sizeNotPositive
  else if zh_c = 0 then .error .zhCZero
  else if pow_u64 omega n ≠ 1 then .error .omegaPowNotOne
  else if 2 ≤ n ∧ pow_u64 omega (n / 2) = 1 then .error .omegaNotPrimitive
  else .ok ()

/-- C5: domain validation succeeds exactly when the size is positive, the
vanishing constant is nonzero, omega to the N is one and (for N at least
2) omega to the N/2 is not one; and the square-and-multiply `pow_u64`
agrees with the mathematical power function everywhere. -/
theorem validate_domain_params_iff {K : Type} [CommRing K] [DecidableEq K]
    (n : Nat) (omega zh_c : K) :
    (validate_domain_params n omega zh_c = .ok ()
      ↔ (0 < n ∧ zh_c ≠ 0 ∧ omega ^ n = 1 ∧ (n < 2 ∨ omega ^ (n / 2) ≠ 1)))
    ∧ (∀ (b : K) (e : Nat), pow_u64 b e = b ^ e) := by
  have hpow : ∀ (b : K) (e : Nat), pow_u64 b e = b ^ e := by
    intro b e
    rw [pow_u64, pow_u64_loop_eq, one_mul]
  refine ⟨?_, hpow⟩
  unfold validate_domain_params
  simp only [hpow]
  by_cases h1 : n = 0
  · rw [if_pos h1]
    exact iff_of_false (fun h => Except.noConfusion h) (by omega)
  rw [if_neg h1]
  by_cases h2 : zh_c = 0
  · rw [if_pos h2]
    refine iff_of_false (fun h => Except.noConfusion h) ?_
    rintro ⟨-, hz, -, -⟩
    exact hz h2
  rw [if_neg h2]
  by_cases h3 : omega ^ n ≠ 1
  · rw [if_pos h3]
    refine iff_of_false (fun h => Except.noConfusion h) ?_
    rintro ⟨-, -, ho, -⟩
    exact h3 ho
  rw [if_neg h3]
  push_neg at h3
  by_cases h4 : 2 ≤ n ∧ omega ^ (n / 2) = 1
  · rw [if_pos h4]
    refine iff_of_false (fun h => Except.noConfusion h) ?_
    rintro ⟨-, -, -, hor⟩
    rcases hor with hlt | hne
    · omega
    · exact hne h4.2
  · rw [if_neg h4]
    refine iff_of_true rfl ⟨by omega, h2, h3, ?_⟩
    by_cases hn2 : n < 2
    · exact Or.inl hn2
    · refine Or.inr fun hone => h4 ⟨by omega, hone⟩

/-- One bit-smearing step of the branch-free next-power-of-two routine:
`n |= n >> sh` on a 64-bit word (right shift and bitwise or never enlarge
the value, so no truncation is needed inside the chain). -/
def smear_or (x sh : Nat) : Nat := x ||| (x >>> sh)

/-- Branch-free next power of two (`prover.rs`, lines 48-58): return 1
for input 0, otherwise smear the bits of `n - 1` downwards with shifts
1, 2, 4, 8, 16, 32 and add one.  The final increment is a 64-bit `usize`
addition; its release-mode wrapping is made explicit with `% 2 ^ 64`. -/
def next_power_of_two (n : Nat) : Nat :=
  if n = 0 then 1
  else
    (smear_or (smear_or (smear_or (smear_or (smear_or (smear_or (n - 1) 1) 2) 4) 8)
        16) 32 + 1) % 2 ^ 64

/-- Modelled from the spec: the API helper `next_pow2` (`tinyzkp_api.rs`,
lines 613-618) returns 1 for inputs at most 1 and otherwise calls the
external Rust standard primitive `usize::next_power_of_two`, documented to
return the smallest power of two greater than or equal to its argument and
to wrap to 0 on overflow in release builds; that contract is expressed
here through `Nat.clog`. -/
def next_pow2 (n : Nat) : Nat :=
  if n ≤ 1 then 1 else 2 ^ Nat.clog 2 n % 2 ^ 64

theorem testBit_smear_or (x sh i : Nat) :
    (smear_or x sh).testBit i = (x.testBit i || x.testBit (i + sh)) := by
  rw [smear_or, Nat.testBit_lor, Nat.testBit_shiftRight, Nat.add_comm sh i]

theorem smear_or_window (x w y : Nat)
    (h : ∀ i, y.testBit i = true ↔ ∃ d, d < w ∧ x.testBit (i + d) = true) :
    ∀ i, (smear_or y w).testBit i = true
      ↔ ∃ d, d < 2 * w ∧ x.testBit (i + d) = true := by
  intro i
  rw [testBit_smear_or, Bool.or_eq_true]
  constructor
  · rintro (hb | hb)
    · rcases (h i).1 hb with ⟨d, hd, hbit⟩
      exact ⟨d, by omega, hbit⟩
    · rcases (h (i + w)).1 hb with ⟨d, hd, hbit⟩
      refine ⟨w + d, by omega, ?_⟩
      rwa [← Nat.add_assoc]
  · rintro ⟨d, hd, hbit⟩
    by_cases hdw : d < w
    · exact Or.inl ((h i).2 ⟨d, hdw, hbit⟩)
    · refine Or.inr ((h (i + w)).2 ⟨d - w, by omega, ?_⟩)
      have heq : i + w + (d - w) = i + d := by omega
      rwa [heq]

theorem smear_chain_window (x : Nat) :
    ∀ i, (smear_or (smear_or (smear_or (smear_or (smear_or (smear_or x 1) 2) 4) 8)
        16) 32).testBit i = true
      ↔ ∃ d, d < 64 ∧ x.testBit (i + d) = true := by
  have h0 : ∀ i, x.testBit i = true ↔ ∃ d, d < 1 ∧ x.testBit (i + d) = true := by
    intro i
    constructor
    · intro hb
      exact ⟨0, by omega, by rwa [Nat.add_zero]⟩
    · rintro ⟨d, hd, hbit⟩
      have hd0 : d = 0 := by omega
      rwa [hd0, Nat.add_zero] at hbit
  have h1 := smear_or_window x 1 x h0
  have h2 := smear_or_window x 2 _ h1
  have h4 := smear_or_window x 4 _ h2
  have h8 := smear_or_window x 8 _ h4
  have h16 := smear_or_window x 16 _ h8
  have h32 := smear_or_window x 32 _ h16
  intro i
  constructor
  · intro hb
    rcases (h32 i).1 hb with ⟨d, hd, hbit⟩
    exact ⟨d, by omega, hbit⟩
  · rintro ⟨d, hd, hbit⟩
    exact (h32 i).2 ⟨d, by omega, hbit⟩

/-- The smearing chain turns any 64-bit value into the all-ones mask of
its bit length. -/
theorem smear_chain_eq (x : Nat) (hx : x < 2 ^ 64) :
    smear_or (smear_or (smear_or (smear_or (smear_or (smear_or x 1) 2) 4) 8) 16) 32
      = 2 ^ x.size - 1 := by
  have hsz : x.size ≤ 64 := Nat.size_le.mpr hx
  apply Nat.eq_of_testBit_eq
  intro i
  rw [Nat.testBit_two_pow_sub_one]
  by_cases hi : i < x.size
  · have hx0 : 0 < x := by
      rcases Nat.eq_zero_or_pos x with h0 | h0
      · rw [h0] at hi
        simp [Nat.size_zero] at hi
      · exact h0
    have hspos : 0 < x.size := Nat.size_pos.mpr hx0
    have hlow : 2 ^ (x.size - 1) ≤ x := Nat.lt_size.mp (by omega)
    have hhigh : x < 2 ^ x.size := Nat.lt_size_self x
    have hbit : x.testBit (x.size - 1) = true := by
      rw [Nat.testBit_to_div_mod]
      have hppos : 0 < 2 ^ (x.size - 1) := Nat.pos_pow_of_pos _ (by omega)
      have hd1 : 1 ≤ x / 2 ^ (x.size - 1) := (Nat.one_le_div_iff hppos).mpr hlow
      have hd2 : x / 2 ^ (x.size - 1) < 2 := by
        rw [Nat.div_lt_iff_lt_mul hppos]
        calc x < 2 ^ x.size := hhigh
        _ = 2 * 2 ^ (x.size - 1) := by
              rw [← pow_succ']
              congr 1
              omega
      have hdiv : x / 2 ^ (x.size - 1) = 1 := by omega
      simp [hdiv]
    have hset := (smear_chain_window x i).2
      ⟨x.size - 1 - i, by omega, by
        have heq : i + (x.size - 1 - i) = x.size - 1 := by omega
        rwa [heq]⟩
    rw [hset]
    simp [hi]
  · have hclear : ¬ ((smear_or (smear_or (smear_or (smear_or (smear_or
        (smear_or x 1) 2) 4) 8) 16) 32).testBit i = true) := by
      intro hb
      rcases (smear_chain_window x i).1 hb with ⟨d, hd, hbit⟩
      have hlt : x < 2 ^ (i + d) :=
        lt_of_lt_of_le (Nat.lt_size_self x)
          (Nat.pow_le_pow_right (by omega) (by omega))
      rw [Nat.testBit_lt_two_pow hlt] at hbit
      exact Bool.noConfusion hbit
    rw [Bool.not_eq_true] at hclear
    rw [hclear]
    simp [hi]

/-- In range, the branch-free routine computes two to the bit length of
`n - 1`. -/
theorem next_power_of_two_eq (n : Nat) (h0 : 0 < n) (hn : n ≤ 2 ^ 63) :
    next_power_of_two n = 2 ^ (n - 1).size := by
  have h64 : (2 : Nat) ^ 63 < 2 ^ 64 := by norm_num
  unfold next_power_of_two
  rw [if_neg (by omega)]
  rw [smear_chain_eq (n - 1) (by omega)]
  have hsz : (n - 1).size ≤ 63 := Nat.size_le.mpr (by
    have : (2 : Nat) ^ 63 = 2 ^ 63 := rfl
    omega)
  have hlt : 2 ^ (n - 1).size < 2 ^ 64 :=
    lt_of_le_of_lt (Nat.pow_le_pow_right (by omega) hsz) h64
  have hpos : 0 < 2 ^ (n - 1).size := Nat.pos_pow_of_pos _ (by omega)
  rw [Nat.sub_add_cancel hpos]
  exact Nat.mod_eq_of_lt hlt

/-- C6 (amended part): for every row count up to 2 to the 63, both the
CLI routine `next_power_of_two` and the API helper `next_pow2` compute the
least power of two greater than or equal to `max rows 1`; in particular
the result for zero rows is 1. -/
theorem next_power_of_two_least (rows : Nat) (hrows : rows ≤ 2 ^ 63) :
    (∃ e, next_power_of_two rows = 2 ^ e)
    ∧ max rows 1 ≤ next_power_of_two rows
    ∧ (∀ m, max rows 1 ≤ 2 ^ m → next_power_of_two rows ≤ 2 ^ m)
    ∧ next_pow2 rows = next_power_of_two rows
    ∧ next_power_of_two 0 = 1 := by
  rcases Nat.eq_zero_or_pos rows with h0 | h0
  · subst h0
    refine ⟨⟨0, rfl⟩, by decide, ?_, by decide, rfl⟩
    intro m hm
    have : 1 ≤ 2 ^ m := Nat.one_le_two_pow
    simpa [next_power_of_two] using this
  · have hmax : max rows 1 = rows := by omega
    have heq := next_power_of_two_eq rows h0 hrows
    have hub : rows ≤ 2 ^ (rows - 1).size := by
      have := Nat.lt_size_self (rows - 1)
      omega
    have hmin : ∀ m, rows ≤ 2 ^ m → 2 ^ (rows - 1).size ≤ 2 ^ m := by
      intro m hm
      exact Nat.pow_le_pow_right (by omega) (Nat.size_le.mpr (by omega))
    refine ⟨⟨(rows - 1).size, heq⟩, ?_, ?_, ?_, by decide⟩
    · rw [hmax, heq]
      exact hub
    · intro m hm
      rw [hmax] at hm
      rw [heq]
      exact hmin m hm
    · rcases Nat.lt_or_ge rows 2 with h2 | h2
      · have h1 : rows = 1 := by omega
        subst h1
        decide
      · have hcu : Nat.clog 2 rows ≤ 63 :=
          (Nat.le_pow_iff_clog_le (by omega)).mp hrows
        have hclt : 2 ^ Nat.clog 2 rows < 2 ^ 64 :=
          lt_of_le_of_lt (Nat.pow_le_pow_right (by omega) hcu) (by norm_num)
        have hle1 : 2 ^ (rows - 1).size ≤ 2 ^ Nat.clog 2 rows :=
          hmin _ (Nat.le_pow_clog (by omega) rows)
        have hle2 : 2 ^ Nat.clog 2 rows ≤ 2 ^ (rows - 1).size :=
          Nat.pow_le_pow_right (by omega)
            ((Nat.le_pow_iff_clog_le (by omega)).mp hub)
        rw [next_pow2, if_neg (by omega), heq, Nat.mod_eq_of_lt hclt]
        omega

/-- Witness for `next_power_of_two_least`: 1024 rows give domain size
1024 on both paths. -/
theorem next_power_of_two_least_witness :
    (1024 : Nat) ≤ 2 ^ 63
    ∧ next_power_of_two 1024 = 1024
    ∧ max 1024 1 ≤ next_power_of_two 1024 := by
  refine ⟨by norm_num, by decide, ?_⟩
  exact (next_power_of_two_least 1024 (by norm_num)).2.1

/-- At `2 ^ 63 + 1` the std-backed `next_pow2` overflows and wraps to 0. -/
theorem next_pow2_overflow : next_pow2 (2 ^ 63 + 1) = 0 := by
  rw [next_pow2, if_neg (by norm_num)]
  have h1 : Nat.clog 2 (2 ^ 63 + 1) ≤ 64 :=
    (Nat.le_pow_iff_clog_le (by omega)).mp (by norm_num)
  have h2 : ¬ Nat.clog 2 (2 ^ 63 + 1) ≤ 63 := by
    intro hc
    have := (Nat.le_pow_iff_clog_le (by omega)).mpr hc
    norm_num at this
  have hc64 : Nat.clog 2 (2 ^ 63 + 1) = 64 := by omega
  rw [hc64]
  exact Nat.mod_self _

/-- C6 (counterexample): at `rows = 2 ^ 63 + 1` the 64-bit increment in
`next_power_of_two` wraps and the function returns 0 (and the std-backed
`next_pow2` likewise), which is not a power of two at or above
`max rows 1`: the claim is false for row counts above 2 to the 63. -/
theorem next_power_of_two_wraps_to_zero :
    next_power_of_two (2 ^ 63 + 1) = 0
    ∧ next_pow2 (2 ^ 63 + 1) = 0
    ∧ 0 < max (2 ^ 63 + 1) 1 := by
  refine ⟨?_, next_pow2_overflow, by omega⟩
  unfold next_power_of_two
  rw [if_neg (by omega)]
  rw [Nat.add_sub_cancel]
  rw [smear_chain_eq (2 ^ 63) (by norm_num)]
  rw [Nat.size_pow]
  rw [Nat.sub_add_cancel (Nat.pos_pow_of_pos _ (by omega))]
  exact Nat.mod_self _

/-- Modelled from the spec: the floating-point rounded square root used
by `plan_b_blk` (`tinyzkp_api.rs`, line 610) - the external primitives
`f64::sqrt` (correctly rounded per IEEE 754) and `f64::round` followed by
the cast to `usize`.  For the power-of-two domain sizes that occur, the
composition equals the nearest integer to the real square root (no such
input lies within an ulp of a rounding tie), which this definition
expresses exactly over the naturals via the integer square root. -/
def sqrt_round_f64 (n : Nat) : Nat :=
  let s := Nat.sqrt n
  if 4 * n < (2 * s + 1) ^ 2 then s else s + 1

/-- Rust `x.clamp(lo, hi)` on naturals. -/
def clampNat (lo hi x : Nat) : Nat := min (max x lo) hi

/-- Block-size planner (`tinyzkp_api.rs`, lines 605-612): honor a caller
override, floored at 1; otherwise take the next power of two of
`max rows 1` and clamp its rounded square root to the interval
[8, 4096]. -/
def plan_b_blk (rows : Nat) (provided : Option Nat) : Nat :=
  match provided with
  | some b => max b 1
  | none => clampNat 8 4096 (sqrt_round_f64 (next_pow2 (max rows 1)))

theorem sq_lt_sq_nat {a b : Nat} (h : a ^ 2 < b ^ 2) : a < b := by
  by_contra hh
  push_neg at hh
  exact absurd (Nat.pow_le_pow_left hh 2) (by omega)

/-- The strict bracketing `(2r-1)^2 < 4n < (2r+1)^2` pins the rounded
square root. -/
theorem sqrt_round_f64_eq (n r : Nat)
    (h1 : (2 * r - 1) ^ 2 < 4 * n) (h2 : 4 * n < (2 * r + 1) ^ 2) :
    sqrt_round_f64 n = r := by
  unfold sqrt_round_f64
  have hs1 : Nat.sqrt n ^ 2 ≤ n := Nat.sqrt_le' n
  have hs2 : n < (Nat.sqrt n + 1) ^ 2 := Nat.lt_succ_sqrt' n
  have h4s1 : (2 * Nat.sqrt n) ^ 2 ≤ 4 * n := by
    have := Nat.mul_le_mul_left 4 hs1
    calc (2 * Nat.sqrt n) ^ 2 = 4 * Nat.sqrt n ^ 2 := by ring
    _ ≤ 4 * n := by omega
  have h4s2 : 4 * n < (2 * Nat.sqrt n + 2) ^ 2 := by
    have := Nat.mul_le_mul_left 4 hs2
    calc 4 * n < 4 * (Nat.sqrt n + 1) ^ 2 := by nlinarith [hs2]
    _ = (2 * Nat.sqrt n + 2) ^ 2 := by ring
  have hsr : Nat.sqrt n ≤ r := by
    have := sq_lt_sq_nat (lt_of_le_of_lt h4s1 h2)
    omega
  by_cases hc : 4 * n < (2 * Nat.sqrt n + 1) ^ 2
  · rw [if_pos hc]
    have hlt := sq_lt_sq_nat (lt_of_lt_of_le h1 (le_of_lt hc))
    omega
  · rw [if_neg hc]
    push_neg at hc
    have hlow := sq_lt_sq_nat (lt_of_le_of_lt hc h2)
    have hhigh := sq_lt_sq_nat (lt_of_lt_of_le h1 (le_of_lt h4s2))
    omega

/-- In range, `next_pow2` is two to the ceiling base-2 logarithm. -/
theorem next_pow2_eq_clog (n : Nat) (h0 : 0 < n) (hn : n ≤ 2 ^ 63) :
    next_pow2 n = 2 ^ Nat.clog 2 n := by
  by_cases h1 : n ≤ 1
  · have : n = 1 := by omega
    subst this
    rw [next_pow2, if_pos le_rfl, Nat.clog_one_right, pow_zero]
  · have hcu : Nat.clog 2 n ≤ 63 := (Nat.le_pow_iff_clog_le (by omega)).mp hn
    have hclt : 2 ^ Nat.clog 2 n < 2 ^ 64 :=
      lt_of_le_of_lt (Nat.pow_le_pow_right (by omega) hcu) (by norm_num)
    rw [next_pow2, if_neg h1]
    exact Nat.mod_eq_of_lt hclt

/-- C8 (amended part): a caller-provided block size `b` is honored as
`max b 1`; with no override and `rows` at most 2 to the 63, the planner
returns the nearest integer to the square root of the domain size
`N = 2 ^ clog2 (max rows 1)` (the least power of two at or above
`max rows 1`), clamped to [8, 4096].  The nearest integer `r` is
characterized by the strict bracketing `(2r-1)^2 < 4N < (2r+1)^2`, which
has no ties for these `N`. -/
theorem plan_b_blk_spec :
    (∀ rows b, plan_b_blk rows (some b) = max b 1)
    ∧ (∀ rows r, rows ≤ 2 ^ 63 →
        (2 * r - 1) ^ 2 < 4 * 2 ^ Nat.clog 2 (max rows 1) →
        4 * 2 ^ Nat.clog 2 (max rows 1) < (2 * r + 1) ^ 2 →
        plan_b_blk rows none = min (max r 8) 4096) := by
  constructor
  · intro rows b
    rfl
  · intro rows r hrows h1 h2
    have hmax0 : 0 < max rows 1 := by omega
    have hmaxle : max rows 1 ≤ 2 ^ 63 := by
      have : (1 : Nat) ≤ 2 ^ 63 := Nat.one_le_two_pow
      omega
    show clampNat 8 4096 (sqrt_round_f64 (next_pow2 (max rows 1))) = _
    rw [next_pow2_eq_clog (max rows 1) hmax0 hmaxle,
      sqrt_round_f64_eq _ r h1 h2]
    rfl

/-- Witness for `plan_b_blk_spec`: 1000 rows, no override.  The domain
size is 1024, its rounded square root is 32, within the clamp range. -/
theorem plan_b_blk_spec_witness :
    (1000 : Nat) ≤ 2 ^ 63
    ∧ (2 * 32 - 1) ^ 2 < 4 * 2 ^ Nat.clog 2 (max 1000 1)
    ∧ 4 * 2 ^ Nat.clog 2 (max 1000 1) < (2 * 32 + 1) ^ 2
    ∧ plan_b_blk 1000 none = min (max 32 8) 4096
    ∧ plan_b_blk 1000 (some 17) = max 17 1 := by
  have hmax : max 1000 1 = 1000 := by norm_num
  have hc1 : Nat.clog 2 1000 ≤ 10 :=
    (Nat.le_pow_iff_clog_le (by norm_num)).mp (by norm_num)
  have hc2 : ¬ Nat.clog 2 1000 ≤ 9 := by
    intro h
    have := (Nat.le_pow_iff_clog_le (by norm_num)).mpr h
    norm_num at this
  have hc : Nat.clog 2 (max 1000 1) = 10 := by
    rw [hmax]
    omega
  refine ⟨by norm_num, ?_, ?_, ?_, plan_b_blk_spec.1 1000 17⟩
  · rw [hc]
    norm_num
  · rw [hc]
    norm_num
  · exact plan_b_blk_spec.2 1000 32 (by norm_num)
      (by rw [hc]; norm_num) (by rw [hc]; norm_num)

/-- C8 (counterexample): at `rows = 2 ^ 63 + 1` the wrapped `next_pow2`
yields 0, so the planner returns the lower clamp bound 8, whereas the
next power of two of `max rows 1` is 2 to the 64, whose rounded square
root 2 to the 32 (bracketed strictly below) clamps to 4096: the claim is
false for row counts above 2 to the 63. -/
theorem plan_b_blk_wrap_counterexample :
    plan_b_blk (2 ^ 63 + 1) none = 8
    ∧ (2 * 2 ^ 32 - 1) ^ 2 < 4 * 2 ^ 64
    ∧ 4 * 2 ^ 64 < (2 * 2 ^ 32 + 1) ^ 2
    ∧ min (max (2 ^ 32) 8) 4096 = 4096
    ∧ (8 : Nat) ≠ 4096 := by
  refine ⟨?_, by norm_num, by norm_num, by norm_num, by norm_num⟩
  show clampNat 8 4096 (sqrt_round_f64 (next_pow2 (max (2 ^ 63 + 1) 1))) = 8
  rw [Nat.max_eq_left (by omega), next_pow2_overflow]
  decide

/-- Signed 64-bit saturation, clamping to the `i64` range. -/
def satI64 (x : Int) : Int := max (-(2 ^ 63)) (min x (2 ^ 63 - 1))

/-- Rust `i64::saturating_mul`. -/
def satMul (a b : Int) : Int := satI64 (a * b)

/-- Rust `i64::saturating_add`. -/
def satAdd (a b : Int) : Int := satI64 (a + b)

/-- Rust `i64::saturating_sub`. -/
def satSub (a b : Int) : Int := satI64 (a - b)

/-- Rust `i64::saturating_div`: truncated division, saturating at the
`i64` bounds (which only matter at MIN / -1). -/
def satDiv (a b : Int) : Int := satI64 (Int.tdiv a b)

/-- Rust `usize as i64`: two's-complement reinterpretation of the low 64
bits. -/
def i64OfUsize (n : Nat) : Int :=
  let m : Nat := n % 2 ^ 64
  if m < 2 ^ 63 then (m : Int) else (m : Int) - 2 ^ 64

/-- Rust `i64 as usize`: bit reinterpretation back to an unsigned 64-bit
value. -/
def usizeOfI64 (x : Int) : Nat := (x.emod (2 ^ 64)).toNat

/-- Pricing configuration (`tinyzkp_api.rs`, `PricingConfig`). -/
structure PricingConfig where
  base_cost_cents : Int
  cost_per_million_ops_cents : Int
  free_monthly_ops : Int
deriving DecidableEq

/-- Prepaid account record (`tinyzkp_api.rs`, `Account`): balance in
cents, lifetime spend, free-tier ops used this month. -/
structure Account where
  balance_cents : Int
  total_spent_cents : Int
  free_ops_used : Int
deriving DecidableEq

/-- Cost of a proof in cents (`tinyzkp_api.rs`, lines 220-227):
base fee plus row-ops times the per-million-ops rate, all with saturating
64-bit arithmetic. -/
def calculate_cost (rows registers : Nat) (config : PricingConfig) : Int :=
  let ops := satMul (i64OfUsize rows) (i64OfUsize registers)
  let base_cents := config.base_cost_cents
  let compute_cents := satDiv (satMul ops config.cost_per_million_ops_cents) 1000000
  satAdd base_cents compute_cents

/-- The free-tier split computed by `check_and_deduct` (`tinyzkp_api.rs`,
lines 762-784): ops covered by the free tier and the cents actually
charged.  When the free tier partially covers the request, the paid part
is re-priced from the paid ops divided by the register count (floored at
one row). -/
def deduct_amounts (pricing : PricingConfig) (acct : Account)
    (rows registers : Nat) : Int × Int :=
  let ops := satMul (i64OfUsize rows) (i64OfUsize registers)
  let cost_cents := calculate_cost rows registers pricing
  let free_available := satSub pricing.free_monthly_ops acct.free_ops_used
  if ops ≤ free_available then (ops, 0)
  else if 0 < free_available then
    let ops_paid := ops - free_available
    let paid_cost := calculate_cost
      (usizeOfI64 (max (Int.tdiv ops_paid (i64OfUsize registers)) 1)) registers pricing
    (free_available, paid_cost)
  else (0, cost_cents)

/-- API error outcomes relevant to the modelled prove path. -/
inductive ApiErr
  | paymentRequired
  | badRequest
deriving DecidableEq

/-- Balance check and deduction (`tinyzkp_api.rs`, lines 736-819),
modelled at the level of the stored account record: the key-value store
holds one account per API key, read at entry and written back before the
function returns; authentication headers and usage counters are elided.
On success the updated account has already been saved (the write is the
`kvs.set_ex` at lines 809-812), and the charged cents plus the remaining
balance are returned. -/
def check_and_deduct (pricing : PricingConfig) (acct : Account)
    (rows registers : Nat) : Except ApiErr (Account × Int × Int) :=
  let a := deduct_amounts pricing acct rows registers
  if acct.balance_cents < a.2 then .error .paymentRequired
  else
    let acct2 : Account :=
      { balance_cents := satSub acct.balance_cents a.2
        total_spent_cents := satAdd acct.total_spent_cents a.2
        free_ops_used := satAdd acct.free_ops_used a.1 }
    .ok (acct2, a.2, acct2.balance_cents)

/-- The prove handler prefix (`tinyzkp_api.rs`, lines 1205-1223): charge
the account first via `check_and_deduct`, then enforce the global
`max_rows` ceiling, returning a bad-request error without touching the
account again.  The first component is the account as stored after the
request; `none` means the handler proceeds to proving. -/
def api_prove (pricing : PricingConfig) (max_rows : Nat) (acct : Account)
    (rows registers : Nat) : Account × Option ApiErr :=
  match check_and_deduct pricing acct rows registers with
  | .error e => (acct, some e)
  | .ok (acct2, _cost, _bal) =>
    if max_rows < rows then (acct2, some .badRequest)
    else (acct2, none)

/-- C9: when the deduction succeeds (the account has sufficient balance)
and the requested rows exceed the global limit, the prove handler returns
the bad-request error and emits no proof, yet the stored account is the
deducted one: its balance has durably decreased by the charged cents and
its lifetime spend has increased by the same amount - the failed request
is not refunded. -/
theorem prove_deducts_before_row_limit (pricing : PricingConfig)
    (max_rows : Nat) (acct acct2 : Account) (rows registers : Nat)
    (cost bal : Int)
    (hok : check_and_deduct pricing acct rows registers = .ok (acct2, cost, bal))
    (hrows : max_rows < rows) :
    api_prove pricing max_rows acct rows registers = (acct2, some .badRequest)
    ∧ acct2.balance_cents = satSub acct.balance_cents cost
    ∧ acct2.total_spent_cents = satAdd acct.total_spent_cents cost := by
  have hinv : acct2 =
      { balance_cents :=
          satSub acct.balance_cents (deduct_amounts pricing acct rows registers).2
        total_spent_cents :=
          satAdd acct.total_spent_cents (deduct_amounts pricing acct rows registers).2
        free_ops_used :=
          satAdd acct.free_ops_used (deduct_amounts pricing acct rows registers).1 }
      ∧ cost = (deduct_amounts pricing acct rows registers).2 := by
    unfold check_and_deduct at hok
    by_cases hb : acct.balance_cents < (deduct_amounts pricing acct rows registers).2
    · rw [if_pos hb] at hok
      exact Except.noConfusion hok
    · rw [if_neg hb] at hok
      injection hok with h
      rw [Prod.mk.injEq, Prod.mk.injEq] at h
      exact ⟨h.1.symm, h.2.1.symm⟩
  obtain ⟨ha, hc⟩ := hinv
  refine ⟨?_, ?_, ?_⟩
  · unfold api_prove
    rw [hok]
    dsimp only
    rw [if_pos hrows]
  · rw [ha, hc]
  · rw [ha, hc]

/-- Example pricing: one-cent base fee, ten cents per million ops, no
free tier. -/
def exPricing : PricingConfig :=
  { base_cost_cents := 1, cost_per_million_ops_cents := 10, free_monthly_ops := 0 }

/-- Example account with a prepaid balance of one dollar. -/
def exAccount : Account :=
  { balance_cents := 100, total_spent_cents := 0, free_ops_used := 0 }

/-- Witness for `prove_deducts_before_row_limit`: 10 rows of 2 registers
cost one cent; against a row limit of 5, the handler rejects the request
while the stored balance has dropped from 100 to 99 cents. -/
theorem prove_deducts_before_row_limit_witness :
    check_and_deduct exPricing exAccount 10 2 =
      .ok ({ balance_cents := 99, total_spent_cents := 1, free_ops_used := 0 }, 1, 99)
    ∧ (5 : Nat) < 10
    ∧ api_prove exPricing 5 exAccount 10 2 =
      ({ balance_cents := 99, total_spent_cents := 1, free_ops_used := 0 },
        some .badRequest)
    ∧ ({ balance_cents := 99, total_spent_cents := 1, free_ops_used := 0 }
        : Account).balance_cents = satSub exAccount.balance_cents 1 := by
  refine ⟨rfl, by omega, ?_, ?_⟩
  · exact (prove_deducts_before_row_limit exPricing 5 exAccount
      { balance_cents := 99, total_spent_cents := 1, free_ops_used := 0 }
      10 2 1 99 rfl (by omega)).1
  · exact (prove_deducts_before_row_limit exPricing 5 exAccount
      { balance_cents := 99, total_spent_cents := 1, free_ops_used := 0 }
      10 2 1 99 rfl (by omega)).2.1

end Sszkp

namespace ZkAgent

/-- Patient features (`zk-agent/src/patient.rs`): unsigned machine
integers modelled as naturals. -/
structure PatientFeatures where
  age_years : Nat
  sex : Nat
  primary_icd10 : Nat
  pregnant : Nat
  pos : Nat
  units : Nat
deriving DecidableEq

/-- Administrative rules (`zk-agent/src/policy.rs`). -/
structure AdminRules where
  pos_allowed : List Nat
  max_units_per_day : Nat
deriving DecidableEq

/-- Policy (`zk-agent/src/policy.rs`): the fields consumed by
`TraceBuilder::build`.  Identification metadata (policy id, version, line
of business, CPT codes) plays no role in trace building and is elided.
`J` is the abstract type of criterion JSON values. -/
structure Policy (J : Type) where
  requires_pa : Bool
  inclusion : List J
  exclusion : List J
  admin_rules : AdminRules

/-- Patient field selectors (`zk-agent/src/criterion.rs`,
`get_field_value`): the six recognized field names; `unknown` stands for
any other string, on which field lookup fails. -/
inductive FieldName
  | age_years
  | sex
  | primary_icd10
  | pregnant
  | pos
  | units
  | unknown
deriving DecidableEq

/-- Criterion (`zk-agent/src/criterion.rs`): comparison operators carry
an `i64` threshold; the membership operator (`In` in the source) carries a
`u32` list. -/
inductive Criterion
  | eq (field : FieldName) (value : Int)
  | neq (field : FieldName) (value : Int)
  | lt (field : FieldName) (value : Int)
  | lte (field : FieldName) (value : Int)
  | gt (field : FieldName) (value : Int)
  | gte (field : FieldName) (value : Int)
  | inList (field : FieldName) (values : List Nat)
deriving DecidableEq

/-- Error outcomes of trace building. -/
inductive TraceError
  | commitmentMismatch
  | criterionParse
  | unknownField
  | bytesTooShort
deriving DecidableEq

/-- Field lookup as `i64` (`get_field_value`). -/
def get_field_value (features : PatientFeatures) :
    FieldName → Except TraceError Int
  | .age_years => .ok features.age_years
  | .sex => .ok features.sex
  | .primary_icd10 => .ok features.primary_icd10
  | .pregnant => .ok features.pregnant
  | .pos => .ok features.pos
  | .units => .ok features.units
  | .unknown => .error .unknownField

/-- Rust `i64 as u32` truncation, used by the `In` evaluation. -/
def u32OfI64 (x : Int) : Nat := (x.emod (2 ^ 32)).toNat

/-- Criterion evaluation (`Criterion::evaluate`). -/
def Criterion.evaluate (c : Criterion) (features : PatientFeatures) :
    Except TraceError Bool :=
  match c with
  | .eq field value =>
    match get_field_value features field with
    | .error e => .error e
    | .ok v => .ok (decide (v = value))
  | .neq field value =>
    match get_field_value features field with
    | .error e => .error e
    | .ok v => .ok (decide (v ≠ value))
  | .lt field value =>
    match get_field_value features field with
    | .error e => .error e
    | .ok v => .ok (decide (v < value))
  | .lte field value =>
    match get_field_value features field with
    | .error e => .error e
    | .ok v => .ok (decide (v ≤ value))
  | .gt field value =>
    match get_field_value features field with
    | .error e => .error e
    | .ok v => .ok (decide (value < v))
  | .gte field value =>
    match get_field_value features field with
    | .error e => .error e
    | .ok v => .ok (decide (value ≤ v))
  | .inList field values =>
    match get_field_value features field with
    | .error e => .error e
    | .ok v => .ok (values.contains (u32OfI64 v))

/-- The field a criterion inspects (`Criterion::field_name`). -/
def Criterion.fieldOf : Criterion → FieldName
  | .eq field _ => field
  | .neq field _ => field
  | .lt field _ => field
  | .lte field _ => field
  | .gt field _ => field
  | .gte field _ => field
  | .inList field _ => field

/-- Patient-side trace value (`Criterion::extract_patient_value`):
`F::from(val as u64)`. -/
def Criterion.extract_patient_value {K : Type} [CommRing K] (c : Criterion)
    (features : PatientFeatures) : Except TraceError K :=
  match get_field_value features c.fieldOf with
  | .error e => .error e
  | .ok v => .ok ((Sszkp.usizeOfI64 v : Nat) : K)

/-- Policy-side trace value (`Criterion::extract_policy_value`): the
threshold for comparisons (as `u64`), the first list element (or 0) for
membership. -/
def Criterion.extract_policy_value {K : Type} [CommRing K] : Criterion → K
  | .eq _ value => ((Sszkp.usizeOfI64 value : Nat) : K)
  | .neq _ value => ((Sszkp.usizeOfI64 value : Nat) : K)
  | .lt _ value => ((Sszkp.usizeOfI64 value : Nat) : K)
  | .lte _ value => ((Sszkp.usizeOfI64 value : Nat) : K)
  | .gt _ value => ((Sszkp.usizeOfI64 value : Nat) : K)
  | .gte _ value => ((Sszkp.usizeOfI64 value : Nat) : K)
  | .inList _ values => ((values.headD 0 : Nat) : K)

/-- One trace row (`myzkp::air::Row`): a sequence of field elements. -/
structure Row (K : Type) where
  regs : List K
deriving DecidableEq

/-- Authorization outcome (`zk-agent/src/decision.rs`). -/
inductive AuthorizationResult
  | approve
  | needsPa
  | deny
deriving DecidableEq

/-- Decision tree (`AuthorizationResult::from_logic`). -/
def AuthorizationResult.from_logic (medical_ok requires_pa admin_ok : Bool) :
    AuthorizationResult :=
  if !medical_ok then .deny
  else if !admin_ok then .deny
  else if requires_pa then .needsPa
  else .approve

/-- Trace encoding of the outcome (`AuthorizationResult::to_field`):
approve 1, needs-PA 2, deny 3. -/
def AuthorizationResult.to_field {K : Type} [CommRing K] :
    AuthorizationResult → K
  | .approve => 1
  | .needsPa => 2
  | .deny => 3

/-- Little-endian `u64` of up to eight bytes. -/
def u64FromLeBytes : List Nat → Nat
  | [] => 0
  | b :: rest => b + 256 * u64FromLeBytes rest

/-- First eight bytes of a hash as a field element
(`zk-agent/src/commitment.rs`, `bytes_to_field`): fails on fewer than
eight bytes, otherwise the little-endian `u64` cast into the field. -/
def bytes_to_field {K : Type} [CommRing K] (bytes : List Nat) :
    Except TraceError K :=
  if bytes.length < 8 then .error .bytesTooShort
  else .ok ((u64FromLeBytes (bytes.take 8) : Nat) : K)

/-- Admin-rule rows (`TraceBuilder::build_admin_rows`, `trace.rs` lines
195-237): the place-of-service row (step 200) and the max-units row
(step 201), plus the field-encoded conjunction of both checks.  The Rust
function returns `Result` but never errors, so it is modelled as a pure
pair. -/
def build_admin_rows {K : Type} [CommRing K] (features : PatientFeatures)
    (admin_rules : AdminRules) (medical_inclusion_ok exclusion_hit : K) :
    List (Row K) × K :=
  let pos_allowed := admin_rules.pos_allowed.contains features.pos
  let pos_ok_field : K := if pos_allowed then 1 else 0
  let row200 : Row K :=
    ⟨[(200 : K), (features.pos : K), ((admin_rules.pos_allowed.headD 0 : Nat) : K),
      pos_ok_field, medical_inclusion_ok, exclusion_hit]⟩
  let units_ok := features.units ≤ admin_rules.max_units_per_day
  let units_ok_field : K := if units_ok then 1 else 0
  let row201 : Row K :=
    ⟨[(201 : K), (features.units : K), (admin_rules.max_units_per_day : K),
      units_ok_field, medical_inclusion_ok, exclusion_hit]⟩
  ([row200, row201], pos_ok_field * units_ok_field)

/-- Inclusion-criteria rows (`trace.rs` lines 84-109): one row per
criterion with step id `i + 2`, multiplying the running AND; returns the
rows and the final running product. -/
def inclusion_rows {K : Type} [CommRing K] {J : Type}
    (fromJson : J → Except TraceError Criterion)
    (features : PatientFeatures) :
    List J → Nat → K → Except TraceError (List (Row K) × K)
  | [], _, running_and => .ok ([], running_and)
  | j :: rest, i, running_and =>
    match fromJson j with
    | .error e => .error e
    | .ok crit =>
      match crit.evaluate features with
      | .error e => .error e
      | .ok passes =>
        match crit.extract_patient_value features with
        | .error e => .error e
        | .ok patient_val =>
          let result_field : K := if passes then 1 else 0
          let running2 := running_and * result_field
          let row : Row K :=
            ⟨[((i + 2 : Nat) : K), patient_val, crit.extract_policy_value,
              result_field, running2, 0]⟩
          match inclusion_rows fromJson features rest (i + 1) running2 with
          | .error e => .error e
          | .ok (rows, rfin) => .ok (row :: rows, rfin)

/-- Exclusion-criteria rows (`trace.rs` lines 116-144): one row per
criterion with step id `100 + i`, latching the running OR, keeping the
inclusion result in register 4. -/
def exclusion_rows {K : Type} [CommRing K] {J : Type}
    (fromJson : J → Except TraceError Criterion)
    (features : PatientFeatures) (medical_inclusion_ok : K) :
    List J → Nat → K → Except TraceError (List (Row K) × K)
  | [], _, running_or => .ok ([], running_or)
  | j :: rest, i, running_or =>
    match fromJson j with
    | .error e => .error e
    | .ok crit =>
      match crit.evaluate features with
      | .error e => .error e
      | .ok hits =>
        match crit.extract_patient_value features with
        | .error e => .error e
        | .ok patient_val =>
          let result_field : K := if hits then 1 else 0
          let running2 : K := if hits then 1 else running_or
          let row : Row K :=
            ⟨[((100 + i : Nat) : K), patient_val, crit.extract_policy_value,
              result_field, medical_inclusion_ok, running2]⟩
          match exclusion_rows fromJson features medical_inclusion_ok rest
              (i + 1) running2 with
          | .error e => .error e
          | .ok (rows, rfin) => .ok (row :: rows, rfin)

/-- The trace builder (`TraceBuilder::build`, `trace.rs` lines 38-183):
verify the patient commitment, emit the two commitment rows, the
inclusion rows, the exclusion rows, the admin rows and the final decision
row.  The SHA-256 commitment (`compute_patient_commitment`, an external
hash) is abstracted as `commitFn`, and criterion JSON parsing
(`Criterion::from_json` over `serde_json::Value`) as `fromJson`.  The
Rust slice expression `bytes[0..8]` panics on a short hash where this
model returns the `bytesTooShort` error; both are failures, and with the
real 32-byte SHA-256 output neither occurs. -/
def build {K : Type} [CommRing K] [DecidableEq K] {J : Type}
    (commitFn : PatientFeatures → List Nat → List Nat)
    (fromJson : J → Except TraceError Criterion)
    (features : PatientFeatures) (policy : Policy J)
    (salt policy_hash patient_commitment : List Nat) :
    Except TraceError (List (Row K) × AuthorizationResult) :=
  let computed_commitment := commitFn features salt
  if computed_commitment ≠ patient_commitment then .error .commitmentMismatch
  else
    match bytes_to_field (K := K) (computed_commitment.take 8) with
    | .error e => .error e
    | .ok c1 =>
      match bytes_to_field (K := K) (patient_commitment.take 8) with
      | .error e => .error e
      | .ok c2 =>
        let row0 : Row K := ⟨[0, c1, c2, 1, 1, 0]⟩
        match bytes_to_field (K := K) (policy_hash.take 8) with
        | .error e => .error e
        | .ok p1 =>
          let row1 : Row K := ⟨[1, p1, p1, 1, 1, 0]⟩
          match inclusion_rows fromJson features policy.inclusion 0 1 with
          | .error e => .error e
          | .ok (inc_rows, medical_inclusion_ok) =>
            match exclusion_rows fromJson features medical_inclusion_ok
                policy.exclusion 0 0 with
            | .error e => .error e
            | .ok (exc_rows, exclusion_hit) =>
              let admin := build_admin_rows features policy.admin_rules
                medical_inclusion_ok exclusion_hit
              let medical_ok_bool : Bool :=
                decide (medical_inclusion_ok = 1) && decide (exclusion_hit = 0)
              let admin_ok_bool : Bool := decide (admin.2 = 1)
              let final_result := AuthorizationResult.from_logic medical_ok_bool
                policy.requires_pa admin_ok_bool
              let finalRow : Row K :=
                ⟨[(999 : K), if medical_ok_bool then 1 else 0,
                  if policy.requires_pa then 1 else 0,
                  final_result.to_field, admin.2, 0]⟩
              .ok ([row0, row1] ++ inc_rows ++ exc_rows ++ admin.1 ++ [finalRow],
                final_result)

theorem build_admin_rows_len {K : Type} [CommRing K]
    (features : PatientFeatures) (admin_rules : AdminRules) (m e : K) :
    ∀ row ∈ (build_admin_rows features admin_rules m e).1, row.regs.length = 6 := by
  intro row hr
  simp [build_admin_rows] at hr
  rcases hr with rfl | rfl <;> rfl

theorem inclusion_rows_len {K : Type} [CommRing K] {J : Type}
    (fromJson : J → Except TraceError Criterion) (features : PatientFeatures) :
    ∀ (js : List J) (i : Nat) (running : K) (rows : List (Row K)) (rfin : K),
      inclusion_rows fromJson features js i running = .ok (rows, rfin) →
      ∀ row ∈ rows, row.regs.length = 6 := by
  intro js
  induction js with
  | nil =>
    intro i running rows rfin h
    injection h with h
    rw [Prod.mk.injEq] at h
    rw [← h.1]
    intro row hr
    cases hr
  | cons j rest ih =>
    intro i running rows rfin h
    unfold inclusion_rows at h
    cases hf : fromJson j with
    | error e => rw [hf] at h; exact Except.noConfusion h
    | ok crit =>
      rw [hf] at h
      dsimp only at h
      cases he : crit.evaluate features with
      | error e => rw [he] at h; exact Except.noConfusion h
      | ok passes =>
        rw [he] at h
        dsimp only at h
        cases hp : crit.extract_patient_value (K := K) features with
        | error e => rw [hp] at h; exact Except.noConfusion h
        | ok patient_val =>
          rw [hp] at h
          dsimp only at h
          cases hrec : inclusion_rows fromJson features rest (i + 1)
              (running * if passes then 1 else 0) with
          | error e => rw [hrec] at h; exact Except.noConfusion h
          | ok pair =>
            rw [hrec] at h
            dsimp only at h
            injection h with h
            rw [Prod.mk.injEq] at h
            intro row hr
            rw [← h.1] at hr
            rcases List.mem_cons.mp hr with rfl | hmem
            · rfl
            · exact ih (i + 1) _ pair.1 pair.2
                (by rw [hrec]) row hmem

theorem exclusion_rows_len {K : Type} [CommRing K] {J : Type}
    (fromJson : J → Except TraceError Criterion) (features : PatientFeatures)
    (m : K) :
    ∀ (js : List J) (i : Nat) (running : K) (rows : List (Row K)) (rfin : K),
      exclusion_rows fromJson features m js i running = .ok (rows, rfin) →
      ∀ row ∈ rows, row.regs.length = 6 := by
  intro js
  induction js with
  | nil =>
    intro i running rows rfin h
    injection h with h
    rw [Prod.mk.injEq] at h
    rw [← h.1]
    intro row hr
    cases hr
  | cons j rest ih =>
    intro i running rows rfin h
    unfold exclusion_rows at h
    cases hf : fromJson j with
    | error e => rw [hf] at h; exact Except.noConfusion h
    | ok crit =>
      rw [hf] at h
      dsimp only at h
      cases he : crit.evaluate features with
      | error e => rw [he] at h; exact Except.noConfusion h
      | ok hits =>
        rw [he] at h
        dsimp only at h
        cases hp : crit.extract_patient_value (K := K) features with
        | error e => rw [hp] at h; exact Except.noConfusion h
        | ok patient_val =>
          rw [hp] at h
          dsimp only at h
          cases hrec : exclusion_rows fromJson features m rest (i + 1)
              (if hits then 1 else running) with
          | error e => rw [hrec] at h; exact Except.noConfusion h
          | ok pair =>
            rw [hrec] at h
            dsimp only at h
            injection h with h
            rw [Prod.mk.injEq] at h
            intro row hr
            rw [← h.1] at hr
            rcases List.mem_cons.mp hr with rfl | hmem
            · rfl
            · exact ih (i + 1) _ pair.1 pair.2
                (by rw [hrec]) row hmem

/-- C10: whenever `TraceBuilder::build` succeeds, every row of the
returned trace - the two commitment rows, the inclusion rows, the
exclusion rows, the admin rows and the final decision row - has exactly
six registers, for every field, commitment function, criterion parser,
patient, policy, salt, policy hash and patient commitment. -/
theorem build_rows_have_six_registers {K : Type} [CommRing K] [DecidableEq K]
    {J : Type} (commitFn : PatientFeatures → List Nat → List Nat)
    (fromJson : J → Except TraceError Criterion)
    (features : PatientFeatures) (policy : Policy J)
    (salt policy_hash patient_commitment : List Nat)
    (trace : List (Row K)) (result : AuthorizationResult)
    (hok : build commitFn fromJson features policy salt policy_hash
        patient_commitment = .ok (trace, result)) :
    ∀ row ∈ trace, row.regs.length = 6 := by
  unfold build at hok
  by_cases hcm : commitFn features salt ≠ patient_commitment
  · rw [if_pos hcm] at hok
    exact Except.noConfusion hok
  rw [if_neg hcm] at hok
  cases h1 : bytes_to_field (K := K) ((commitFn features salt).take 8) with
  | error e => rw [h1] at hok; exact Except.noConfusion hok
  | ok c1 =>
    rw [h1] at hok
    dsimp only at hok
    cases h2 : bytes_to_field (K := K) (patient_commitment.take 8) with
    | error e => rw [h2] at hok; exact Except.noConfusion hok
    | ok c2 =>
      rw [h2] at hok
      dsimp only at hok
      cases h3 : bytes_to_field (K := K) (policy_hash.take 8) with
      | error e => rw [h3] at hok; exact Except.noConfusion hok
      | ok p1 =>
        rw [h3] at hok
        dsimp only at hok
        cases h4 : inclusion_rows (K := K) fromJson features policy.inclusion 0 1 with
        | error e => rw [h4] at hok; exact Except.noConfusion hok
        | ok incp =>
          rw [h4] at hok
          dsimp only at hok
          cases h5 : exclusion_rows (K := K) fromJson features incp.2
              policy.exclusion 0 0 with
          | error e => rw [h5] at hok; exact Except.noConfusion hok
          | ok excp =>
            rw [h5] at hok
            dsimp only at hok
            injection hok with hok
            rw [Prod.mk.injEq] at hok
            intro row hr
            rw [← hok.1] at hr
            simp only [List.mem_append, List.mem_cons,
              List.not_mem_nil, or_false] at hr
            rcases hr with ((((rfl | rfl) | hinc) | hexc) | hadmin) | rfl
            · rfl
            · rfl
            · exact inclusion_rows_len fromJson features policy.inclusion 0 1
                incp.1 incp.2 (by rw [h4]) row hinc
            · exact exclusion_rows_len fromJson features incp.2 policy.exclusion
                0 0 excp.1 excp.2 (by rw [h5]) row hexc
            · exact build_admin_rows_len features policy.admin_rules incp.2
                excp.2 row hadmin
            · rfl

/-- Example patient: a 55-year-old at place of service 22 requesting one
unit. -/
def exFeatures : PatientFeatures :=
  { age_years := 55, sex := 0, primary_icd10 := 2001, pregnant := 0,
    pos := 22, units := 1 }

/-- Example policy: no criteria, place of service 22 allowed, one unit
per day, no prior authorization. -/
def exPolicy : Policy Unit :=
  { requires_pa := false, inclusion := [], exclusion := [],
    admin_rules := { pos_allowed := [22], max_units_per_day := 1 } }

/-- Example 32-byte hash value (all zero). -/
def exHash : List Nat := List.replicate 32 0

/-- The trace `build` produces on the example inputs. -/
def exTrace : List (Row Int) :=
  [⟨[0, 0, 0, 1, 1, 0]⟩, ⟨[1, 0, 0, 1, 1, 0]⟩, ⟨[200, 22, 22, 1, 1, 0]⟩,
    ⟨[201, 1, 1, 1, 1, 0]⟩, ⟨[999, 1, 0, 1, 1, 0]⟩]

/-- Witness for `build_rows_have_six_registers`: a concrete successful
run (approval) whose five rows all have six registers. -/
theorem build_rows_have_six_registers_witness :
    build (K := Int) (fun _ _ => exHash) (fun _ : Unit => .error .criterionParse)
        exFeatures exPolicy exHash exHash exHash = .ok (exTrace, .approve)
    ∧ ∀ row ∈ exTrace, row.regs.length = 6 := by
  refine ⟨rfl, ?_⟩
  exact build_rows_have_six_registers (fun _ _ => exHash)
    (fun _ : Unit => .error .criterionParse) exFeatures exPolicy
    exHash exHash exHash exTrace .approve rfl

end ZkAgent
